import Mathlib

/-!
# Pokevendor card-resolution pipeline: a shallow embedding

This file embeds the card-resolution logic of the Pokevendor repository in
Lean 4 and proves (or refutes) the frozen claims about it.

Conventions used throughout the embedding:
* JavaScript numbers that only ever hold decimal prices are modelled as `ℚ`.
* A JavaScript value that may be `null`/`undefined` is modelled as `Option _`;
  JavaScript truthiness on strings (`"" ` is falsy) and on numbers (`0` is
  falsy) is made explicit in dedicated helper functions.
* Outbound HTTP calls are modelled as oracle arguments: a function giving the
  outcome of each attempt, so that retry logic and error containment can be
  stated for every possible behaviour of the network.
* `Math.random()` is modelled as an oracle `ℕ → ℚ` whose values are assumed to
  lie in `[0, 1)` exactly where the source relies on that.
-/

/-! ## JavaScript-style helpers -/

/-- JS `a || b` for two possibly-absent strings: the empty string is falsy. -/
def jsOrS (a b : Option String) : Option String :=
  match a with
  | some s => if s = "" then b else some s
  | none => b

/-- JS `a || d` for a possibly-absent string with a string default. -/
def jsOrStr (a : Option String) (d : String) : String :=
  match a with
  | some s => if s = "" then d else s
  | none => d

/-- JS `a || d` for a possibly-absent number with a numeric default: `0` is falsy. -/
def jsNumOr (a : Option ℚ) (d : ℚ) : ℚ :=
  match a with
  | some v => if v = 0 then d else v
  | none => d

/-- JS truthiness of a possibly-absent number: `null`, `undefined` and `0` are falsy. -/
def truthyQ (a : Option ℚ) : Option ℚ :=
  match a with
  | some v => if v = 0 then none else some v
  | none => none

/-- Insertion into a JS `Set` (insertion order, no duplicates). -/
def insertUniq (l : List String) (x : String) : List String :=
  if x ∈ l then l else l ++ [x]

/-- Lower-casing as used by `String.prototype.toLowerCase` (ASCII range). -/
def jsToLower (s : String) : String := String.mk (s.toList.map Char.toLower)

/-- `String.prototype.trim`: strip leading and trailing whitespace. -/
def jsTrim (s : String) : String :=
  String.mk (((s.toList.dropWhile Char.isWhitespace).reverse.dropWhile
    Char.isWhitespace).reverse)

/-- `needle` is a prefix of `hay` (character lists). -/
def charsPre : List Char → List Char → Bool
  | [], _ => true
  | _ :: _, [] => false
  | a :: as, b :: bs => a = b && charsPre as bs

/-- `needle` occurs contiguously inside `hay` (character lists). -/
def charsInf (needle : List Char) : List Char → Bool
  | [] => needle.isEmpty
  | b :: bs => charsPre needle (b :: bs) || charsInf needle bs

/-- JS `hay.includes(needle)`: contiguous substring containment. -/
def strContains (hay needle : String) : Bool :=
  charsInf needle.toList hay.toList

/-- Replace every (non-overlapping, left-to-right) occurrence of the pattern
`p :: ps` by `rep`, as in JS `s.replace(/pat/g, rep)` for a literal pattern.
The `fuel` argument (instantiated with the input length, which always
suffices) only makes the recursion structural. -/
def replaceChars (p : Char) (ps : List Char) (rep : List Char) : ℕ → List Char → List Char
  | 0, l => l
  | _, [] => []
  | fuel + 1, c :: cs =>
    if c = p ∧ charsPre ps cs then
      rep ++ replaceChars p ps rep fuel (cs.drop ps.length)
    else c :: replaceChars p ps rep fuel cs

/-- JS `s.replace(pat, rep)` with a global literal pattern. -/
def strReplace (s pat rep : String) : String :=
  match pat.toList with
  | [] => s
  | p :: ps => String.mk (replaceChars p ps rep.toList s.toList.length s.toList)

/-! ## Retrying HTTP fetcher

Embeds `fetchWithRetry` from `backend/services/pokemonTcg.js` and (identical
logic, local constants) `backend/services/TCGdex.js`:

```js
async function fetchWithRetry(url, config) {
    for (let i = 0; i < MAX_RETRIES; i++) {
        try {
            return await instance.get(url, config);
        } catch (err) {
            const status = err.response ? err.response.status : 'Network Error';
            if (i === MAX_RETRIES - 1 || (status !== 429 && status < 500 && status !== 'Network Error')) {
                throw err;
            }
            const delay = INITIAL_BACKOFF_MS * Math.pow(2, i) + Math.floor(Math.random() * 500);
            await new Promise(resolve => setTimeout(resolve, delay));
        }
    }
}
```

The outcome of each HTTP attempt is an oracle `ℕ → AttemptResult`; the random
jitter source is an oracle `ℕ → ℚ` (one `Math.random()` draw per retried
attempt). The trace records the returned value (`none` models the `undefined`
fall-through of the `for` loop, which is in fact unreachable), the number of
attempts performed, and the list of delays inserted between attempts. -/

/-- Outcome of one underlying HTTP attempt: a response, an HTTP error with a
status code (`err.response.status`), or a network-level failure (no response). -/
inductive AttemptResult where
  | ok (resp : ℕ)
  | httpErr (status : ℕ)
  | netErr
deriving DecidableEq, Repr

/-- The JS throw condition `status !== 429 && status < 500 && status !== 'Network Error'`:
for a network error the numeric comparison is false, so only a non-429
status below 500 aborts the retry loop early. -/
def nonRetryable : AttemptResult → Bool
  | .ok _ => false
  | .httpErr s => s ≠ 429 && s < 500
  | .netErr => false

def MAX_RETRIES : ℕ := 5

def INITIAL_BACKOFF_MS : ℤ := 1000

/-- `INITIAL_BACKOFF_MS * Math.pow(2, i) + Math.floor(Math.random() * 500)`. -/
def backoffDelay (rand : ℕ → ℚ) (i : ℕ) : ℤ :=
  INITIAL_BACKOFF_MS * 2 ^ i + ⌊rand i * 500⌋

deriving instance DecidableEq for Except

/-- Execution trace of `fetchWithRetry`: final result (`none` = the loop fell
through, which never happens with the source's constants), attempts made, and
the backoff delays inserted between attempts. -/
structure FetchTrace where
  result : Option (Except AttemptResult ℕ)
  attempts : ℕ
  delays : List ℤ
deriving DecidableEq, Repr

/-- The retry loop of `fetchWithRetry`, starting at loop index `i` with
`fuel` iterations remaining (`fuel = MAX_RETRIES - i` at the top call). -/
def fetchLoop (oracle : ℕ → AttemptResult) (rand : ℕ → ℚ) : ℕ → ℕ → FetchTrace
  | _, 0 => ⟨none, 0, []⟩
  | i, fuel + 1 =>
    match oracle i with
    | .ok v => ⟨some (.ok v), 1, []⟩
    | e =>
      if i = MAX_RETRIES - 1 ∨ nonRetryable e then ⟨some (.error e), 1, []⟩
      else
        let rest := fetchLoop oracle rand (i + 1) fuel
        ⟨rest.result, rest.attempts + 1, backoffDelay rand i :: rest.delays⟩

/-- `fetchWithRetry`, given the attempt oracle and the `Math.random()` oracle. -/
def fetchWithRetry (oracle : ℕ → AttemptResult) (rand : ℕ → ℚ) : FetchTrace :=
  fetchLoop oracle rand 0 MAX_RETRIES

theorem fetchLoop_attempts_le (oracle : ℕ → AttemptResult) (rand : ℕ → ℚ) :
    ∀ fuel i, (fetchLoop oracle rand i fuel).attempts ≤ fuel := by
  intro fuel
  induction fuel with
  | zero => intro i; simp [fetchLoop]
  | succ n ih =>
    intro i
    cases h : oracle i with
    | ok v => simp [fetchLoop, h]
    | httpErr s =>
      simp only [fetchLoop, h]
      split
      · simp
      · simpa using Nat.succ_le_succ (ih (i + 1))
    | netErr =>
      simp only [fetchLoop, h]
      split
      · simp
      · simpa using Nat.succ_le_succ (ih (i + 1))

theorem fetchLoop_delays (oracle : ℕ → AttemptResult) (rand : ℕ → ℚ) :
    ∀ fuel i k d, (fetchLoop oracle rand i fuel).delays.get? k = some d →
      d = backoffDelay rand (i + k) := by
  intro fuel
  induction fuel with
  | zero => intro i k d h; simp [fetchLoop] at h
  | succ n ih =>
    intro i k d h
    cases ho : oracle i with
    | ok v => rw [fetchLoop] at h; rw [ho] at h; simp at h
    | httpErr s =>
      rw [fetchLoop] at h; rw [ho] at h
      by_cases hc : i = MAX_RETRIES - 1 ∨ nonRetryable (.httpErr s)
      · simp [hc] at h
      · simp only [if_neg hc] at h
        cases k with
        | zero => rw [Nat.add_zero]; simp at h; exact h.symm
        | succ m =>
          simp only [List.get?] at h
          have := ih (i + 1) m d h
          rw [this]; ring_nf
    | netErr =>
      rw [fetchLoop] at h; rw [ho] at h
      by_cases hc : i = MAX_RETRIES - 1 ∨ nonRetryable .netErr
      · simp [hc] at h
      · simp only [if_neg hc] at h
        cases k with
        | zero => rw [Nat.add_zero]; simp at h; exact h.symm
        | succ m =>
          simp only [List.get?] at h
          have := ih (i + 1) m d h
          rw [this]; ring_nf

/-- C2: if the HTTP call fails with 503 on each of the first four attempts and
succeeds on the fifth, `fetchWithRetry` returns the successful response after
exactly 5 attempts; if every attempt fails with 404 it performs exactly 1
attempt and surfaces the failure immediately; and no execution makes more
than 5 attempts. -/
theorem fetchWithRetry_attempt_budget :
    (∀ oracle rand (v : ℕ),
        (∀ i, i < 4 → oracle i = AttemptResult.httpErr 503) →
        oracle 4 = AttemptResult.ok v →
        (fetchWithRetry oracle rand).result = some (Except.ok v) ∧
        (fetchWithRetry oracle rand).attempts = 5) ∧
    (∀ oracle rand,
        (∀ i, oracle i = AttemptResult.httpErr 404) →
        (fetchWithRetry oracle rand).result = some (Except.error (AttemptResult.httpErr 404)) ∧
        (fetchWithRetry oracle rand).attempts = 1) ∧
    (∀ oracle rand, (fetchWithRetry oracle rand).attempts ≤ 5) := by
  refine ⟨?_, ?_, ?_⟩
  · intro oracle rand v h1 h2
    have e0 := h1 0 (by norm_num)
    have e1 := h1 1 (by norm_num)
    have e2 := h1 2 (by norm_num)
    have e3 := h1 3 (by norm_num)
    constructor <;>
      simp [fetchWithRetry, fetchLoop, e0, e1, e2, e3, h2, nonRetryable, MAX_RETRIES]
  · intro oracle rand h
    have e0 := h 0
    constructor <;>
      simp [fetchWithRetry, fetchLoop, e0, nonRetryable, MAX_RETRIES]
  · intro oracle rand
    simpa [MAX_RETRIES] using fetchLoop_attempts_le oracle rand MAX_RETRIES 0

/-- A fetch stub that fails with 503 on attempts 0–3 and succeeds on attempt 4. -/
def stubOracle503 : ℕ → AttemptResult := fun i => if i < 4 then .httpErr 503 else .ok 42

/-- A fetch stub that always fails with 404. -/
def stubOracle404 : ℕ → AttemptResult := fun _ => .httpErr 404

theorem fetchWithRetry_attempt_budget_witness :
    ((fetchWithRetry stubOracle503 (fun _ => 0)).result = some (Except.ok 42) ∧
      (fetchWithRetry stubOracle503 (fun _ => 0)).attempts = 5) ∧
    ((fetchWithRetry stubOracle404 (fun _ => 0)).result =
        some (Except.error (AttemptResult.httpErr 404)) ∧
      (fetchWithRetry stubOracle404 (fun _ => 0)).attempts = 1) :=
  ⟨fetchWithRetry_attempt_budget.1 stubOracle503 (fun _ => 0) 42
      (fun i h => by simp [stubOracle503, h]) (by simp [stubOracle503]),
    fetchWithRetry_attempt_budget.2.1 stubOracle404 (fun _ => 0)
      (fun i => rfl)⟩

/-- C3: every delay recorded for retried attempt `i` equals
`1000 * 2 ^ i` milliseconds plus a jitter value in `[0, 500)`, provided the
`Math.random()` oracle yields values in `[0, 1)`. -/
theorem fetchWithRetry_backoff_delay :
    ∀ oracle rand k d,
      (∀ i, 0 ≤ rand i ∧ rand i < 1) →
      (fetchWithRetry oracle rand).delays.get? k = some d →
      d = 1000 * 2 ^ k + ⌊rand k * 500⌋ ∧
        (0 : ℤ) ≤ ⌊rand k * 500⌋ ∧ ⌊rand k * 500⌋ < 500 := by
  intro oracle rand k d hr h
  have hd := fetchLoop_delays oracle rand MAX_RETRIES 0 k d h
  refine ⟨?_, ?_, ?_⟩
  · simpa [backoffDelay, INITIAL_BACKOFF_MS] using hd
  · exact Int.floor_nonneg.mpr (mul_nonneg (hr k).1 (by norm_num))
  · apply Int.floor_lt.mpr
    push_cast
    nlinarith [(hr k).2, (hr k).1]

/-- A fetch stub that fails with 503 once and then succeeds. -/
def stubOracleOnce : ℕ → AttemptResult := fun i => if i = 0 then .httpErr 503 else .ok 1

/-- A `Math.random()` stub that always draws 1/2. -/
def stubRandHalf : ℕ → ℚ := fun _ => 1 / 2

theorem fetchWithRetry_backoff_delay_witness :
    (1250 : ℤ) = 1000 * 2 ^ (0 : ℕ) + ⌊stubRandHalf 0 * 500⌋ ∧
      (0 : ℤ) ≤ ⌊stubRandHalf 0 * 500⌋ ∧ ⌊stubRandHalf 0 * 500⌋ < 500 :=
  fetchWithRetry_backoff_delay stubOracleOnce stubRandHalf 0 1250
    (fun _ => by norm_num [stubRandHalf])
    (by
      have h : (stubRandHalf 0 * 500 : ℚ) = 250 := by norm_num [stubRandHalf]
      simp [fetchWithRetry, fetchLoop, stubOracleOnce, MAX_RETRIES, nonRetryable,
        backoffDelay, INITIAL_BACKOFF_MS, h])

/-! ## Name normalizer and spreadsheet catalog adapter

Embeds `backend/services/google-sheets-service.js`: `createNameVariations`,
`extractKeyTerms`, `matchesCard`, `formatSheetCard`, `generateId` and
`searchCardsInSheet`.

String-level regular-expression operations of the source are implemented
character by character. The JS built-ins `String.prototype.normalize('NFKC')`
and `'NFD'` (Unicode normalization) and `parseFloat` are platform
collaborators, passed in as function parameters `nfkc`, `nfd`, `parseFloatQ`. -/

def apostropheChar : Char := Char.ofNat 39

/-- The string `'s` (apostrophe, s). -/
def aposS : String := String.mk [apostropheChar, 's']

/-- The full-width ampersand `＆`. -/
def fullWidthAmp : String := String.mk [Char.ofNat 65286]

/-- JS `a || b` on plain strings (empty string falsy). -/
def jsOr2 (a b : String) : String := if a = "" then b else a

/-- `/\s+/g → ''`: removing every whitespace character. -/
def removeAllWs (s : String) : String :=
  String.mk (s.toList.filter (fun c => !c.isWhitespace))

/-- `/'/g → ''` and friends: removing every occurrence of one character. -/
def removeChar (c : Char) (s : String) : String :=
  String.mk (s.toList.filter (fun x => x ≠ c))

mutual

/-- Replace each maximal run of whitespace by the single character `r`. -/
def collapseWsWith (r : Char) : List Char → List Char
  | [] => []
  | c :: cs => if c.isWhitespace then r :: collapseWsSkip r cs else c :: collapseWsWith r cs

/-- After a whitespace run was replaced: skip the remaining run. -/
def collapseWsSkip (r : Char) : List Char → List Char
  | [] => []
  | c :: cs => if c.isWhitespace then collapseWsSkip r cs else c :: collapseWsWith r cs

end

/-- `/\s+/g → '-'`. -/
def wsRunsToHyphen (s : String) : String :=
  String.mk (collapseWsWith '-' s.toList)

/-- `/\s+/g → ' '`. -/
def collapseWsToSpace (s : String) : String :=
  String.mk (collapseWsWith ' ' s.toList)

/-- `/'s\s/g → ' '`: an apostrophe-s followed by one whitespace character is
replaced (whitespace consumed) by a single space, scanning left to right. -/
def possSpace : List Char → List Char
  | [] => []
  | [c1] => [c1]
  | [c1, c2] => [c1, c2]
  | c1 :: c2 :: c3 :: rest =>
    if c1 = apostropheChar ∧ c2 = 's' ∧ c3.isWhitespace then ' ' :: possSpace rest
    else c1 :: possSpace (c2 :: c3 :: rest)

def possSpaceStr (s : String) : String := String.mk (possSpace s.toList)

/-- JS word characters `[A-Za-z0-9_]` (the `\b` boundary class). -/
def isWordChar (c : Char) : Bool := c.isAlphanum || c = '_'

/-- Is this maximal word run one of `the|a|an|of|and` (case-insensitive)? -/
def matchedStopRun (run : List Char) : Bool :=
  let w := String.mk (run.map Char.toLower)
  w = "the" || w = "a" || w = "an" || w = "of" || w = "and"

mutual

/-- `/\b(the|a|an|of|and)\b/gi → ' '`: scanning outside a word run. -/
def rbwStart : List Char → List Char
  | [] => []
  | c :: cs => if isWordChar c then rbwWord [c] cs else c :: rbwStart cs

/-- Scanning inside a word run, `acc` holding the run so far (reversed). -/
def rbwWord (acc : List Char) : List Char → List Char
  | [] => if matchedStopRun acc.reverse then [' '] else acc.reverse
  | c :: cs =>
    if isWordChar c then rbwWord (c :: acc) cs
    else (if matchedStopRun acc.reverse then [' '] else acc.reverse) ++ c :: rbwStart cs

end

/-- `name.replace(/\b(the|a|an|of|and)\b/gi, ' ').replace(/\s+/g, ' ').trim()`. -/
def withoutCommonWords (name : String) : String :=
  jsTrim (collapseWsToSpace (String.mk (rbwStart name.toList)))

/-- The variation strings added (in order) to the `Set` by `createNameVariations`,
before the conditional `withoutCommonWords` entry. -/
def variationCandidates (nfkc nfd : String → String) (name : String) : List String :=
  [name,
   strReplace name "&" fullWidthAmp,
   strReplace name "&" "and",
   strReplace name "&" " ",
   strReplace (strReplace name "&" "") fullWidthAmp "",
   removeAllWs name,
   possSpaceStr name,
   strReplace name aposS "",
   removeChar apostropheChar name,
   strReplace name "-" " ",
   strReplace name "-" "",
   wsRunsToHyphen name,
   nfkc name,
   nfd name]

/-- `createNameVariations`: a `Set` of variations (insertion order) followed by
`Array.from(variations).filter(v => v.length > 0)`. -/
def createNameVariations (nfkc nfd : String → String) (name : String) : List String :=
  let base := (variationCandidates nfkc nfd name).foldl insertUniq []
  let w := withoutCommonWords name
  let vs := if w = "" then base else insertUniq base w
  vs.filter (fun v => 0 < v.length)

/-- The call site in `searchCardsInSheet`: the raw card name is lower-cased and
trimmed before `createNameVariations` runs. -/
def generateVariations (nfkc nfd : String → String) (rawName : String) : List String :=
  createNameVariations nfkc nfd (jsTrim (jsToLower rawName))

mutual

/-- JS `split(/[sep]+/)`: main state, `cur` holds the current token reversed. -/
def splitRunMain (p : Char → Bool) : List Char → List Char → List String
  | cur, [] => [String.mk cur.reverse]
  | cur, c :: cs =>
    if p c then String.mk cur.reverse :: splitRunSep p cs else splitRunMain p (c :: cur) cs

/-- JS `split(/[sep]+/)`: inside a separator run. -/
def splitRunSep (p : Char → Bool) : List Char → List String
  | [] => [""]
  | c :: cs => if p c then splitRunSep p cs else splitRunMain p [c] cs

end

/-- Separators of `variation.split(/[\s-_']+/)`. -/
def tokenSep (c : Char) : Bool :=
  c.isWhitespace || c = '-' || c = '_' || c = apostropheChar

/-- `variation.split(/[\s-_']+/)`. -/
def splitTokens (v : String) : List String :=
  splitRunMain tokenSep [] v.toList

/-- JS `split(/[,;]/)`: every single separator character splits. -/
def splitEach (p : Char → Bool) : List Char → List Char → List String
  | cur, [] => [String.mk cur.reverse]
  | cur, c :: cs =>
    if p c then String.mk cur.reverse :: splitEach p [] cs else splitEach p (c :: cur) cs

/-- The stop-word list of `extractKeyTerms` (generic English stop words plus
Pokemon-specific terms). -/
def stopWords : List String :=
  ["the", "a", "an", "and", "or", "but", "in", "on", "at", "to", "for",
   "of", "with", "by", "from", "as", "is", "was", "are", "were", "been",
   "be", "have", "has", "had", "do", "does", "did", "will", "would", "should",
   "can", "could", "may", "might", "must", "shall",
   "determination", "resolve", "orders", "command", "full", "force",
   "supporter", "trainer", "item", "stadium", "energy", "gx", "ex", "v", "vmax", "vstar"]

/-- The inner `words.forEach` of `extractKeyTerms`: add every token of length
at least 3 that is not a stop word. -/
def addTokens (ts : List String) (ws : List String) : List String :=
  ws.foldl (fun acc w => if 3 ≤ w.length ∧ w ∉ stopWords then insertUniq acc w else acc) ts

/-- One iteration of the outer `variations.forEach` of `extractKeyTerms`:
tokenize, add qualifying tokens, then add the full variation if it has at
least 3 characters. -/
def addVariation (ts : List String) (v : String) : List String :=
  let ts1 := addTokens ts (splitTokens v)
  if 3 ≤ v.length then insertUniq ts1 v else ts1

/-- `extractKeyTerms(variations)`. -/
def extractKeyTerms (variations : List String) : List String :=
  variations.foldl addVariation []

/-- One spreadsheet row after the header-keying step of `searchCardsInSheet`
(`card[header] = row[index] || ''`): every field is a string, absent cells
are the empty string. -/
structure SheetRow where
  name : String := ""
  card_name : String := ""
  keywords : String := ""
  aliases : String := ""
  sku : String := ""
  set : String := ""
  set_name : String := ""
  card_number : String := ""
  rarity : String := ""
  price : String := ""
  image_url : String := ""
  image : String := ""
  language : String := ""
deriving DecidableEq, Repr

/-- `matchesCard(card, nameVariations)`. -/
def matchesCard (nameVariations : List String) (card : SheetRow) : Bool :=
  let cardNameInSheet := jsTrim (jsToLower (jsOr2 card.name card.card_name))
  let keywordsStr := jsTrim (jsToLower (jsOr2 card.keywords card.aliases))
  let keywordsList :=
    ((splitEach (fun c => c = ',' || c = ';') [] keywordsStr.toList).map jsTrim).filter
      (fun k => 0 < k.length)
  let searchTerms := extractKeyTerms nameVariations
  let matchesCardName :=
    searchTerms.any (fun t => strContains cardNameInSheet t || strContains t cardNameInSheet)
  if matchesCardName then true
  else keywordsList.any (fun k => searchTerms.any (fun t => strContains k t || strContains t k))

/-- The candidate-card shape produced by `formatSheetCard` (nested `set`,
`image` and `pricing` objects flattened into fields). -/
structure FormattedSheetCard where
  id : String
  name : String
  localId : String
  setName : String
  setId : String
  rarity : String
  imageSmall : String
  imageHigh : String
  marketPrice : ℚ
  language : String
  sku : String
  source : String
deriving DecidableEq, Repr

/-- `generateId(card)`. -/
def generateId (c : SheetRow) : String :=
  let n := wsRunsToHyphen (jsToLower (jsOr2 (jsOr2 c.card_name c.name) "unknown"))
  let s := wsRunsToHyphen (jsToLower (jsOr2 (jsOr2 c.set c.set_name) "unknown"))
  s ++ "-" ++ n

/-- `formatSheetCard(sheetCard)`; `parseFloatQ` models the JS `parseFloat`
built-in on a non-empty price string. -/
def formatSheetCard (parseFloatQ : String → ℚ) (c : SheetRow) : FormattedSheetCard where
  id := jsOr2 c.sku (generateId c)
  name := jsOr2 (jsOr2 c.card_name c.name) "Unknown"
  localId := jsOr2 c.sku c.card_number
  setName := jsOr2 c.set (jsOr2 c.set_name "Unknown Set")
  setId := wsRunsToHyphen (jsToLower c.set)
  rarity := jsOr2 c.rarity "Common"
  imageSmall := jsOr2 c.image_url c.image
  imageHigh := jsOr2 c.image_url c.image
  marketPrice := if c.price = "" then 0 else parseFloatQ c.price
  language := jsOr2 c.language "JP"
  sku := c.sku
  source := "google-sheet"

/-- `searchCardsInSheet(cardName, limit)`.

`configured` is the truth of `SPREADSHEET_ID && API_KEY`; `rowsOutcome` is the
outcome of the Google Sheets read (`.error` = the API call threw, `none` =
`response.data.values` was null/undefined), already keyed by header names.
The surrounding `try/catch` converts every thrown error into `[]`, which is
why every branch below is `.ok`. -/
def searchCardsInSheet (parseFloatQ : String → ℚ) (nfkc nfd : String → String)
    (configured : Bool) (rowsOutcome : Except String (Option (List SheetRow)))
    (cardName : String) (limit : ℕ) : Except String (List FormattedSheetCard) :=
  if !configured then .ok []
  else
    match rowsOutcome with
    | .error _ => .ok []
    | .ok none => .ok []
    | .ok (some rows) =>
      let nameLower := jsTrim (jsToLower cardName)
      let nameVariations := createNameVariations nfkc nfd nameLower
      let matching := rows.filter (fun c => matchesCard nameVariations c)
      .ok ((matching.take limit).map (formatSheetCard parseFloatQ))

/-! ### Set-semantics lemmas -/

theorem mem_insertUniq {l : List String} {x y : String} :
    x ∈ insertUniq l y ↔ x ∈ l ∨ x = y := by
  unfold insertUniq
  split
  · next hy => exact ⟨Or.inl, fun hx => hx.elim id (fun e => e ▸ hy)⟩
  · simp

theorem nodup_insertUniq {l : List String} {y : String} (h : l.Nodup) :
    (insertUniq l y).Nodup := by
  unfold insertUniq
  split
  · exact h
  · next hy => simp [List.nodup_append, h, hy]

theorem mem_foldl_insertUniq (l : List String) :
    ∀ acc x, x ∈ l.foldl insertUniq acc ↔ x ∈ acc ∨ x ∈ l := by
  induction l with
  | nil => simp
  | cons a t ih =>
    intro acc x
    simp only [List.foldl_cons, ih, mem_insertUniq, List.mem_cons]
    tauto

theorem nodup_foldl_insertUniq (l : List String) :
    ∀ acc, acc.Nodup → (l.foldl insertUniq acc).Nodup := by
  induction l with
  | nil => intro acc h; simpa using h
  | cons a t ih =>
    intro acc h
    exact ih _ (nodup_insertUniq h)

theorem strLength_pos_of_ne {s : String} (h : s ≠ "") : 0 < s.length := by
  cases s with
  | mk data =>
    cases data with
    | nil => exact absurd rfl h
    | cons c cs => simp [String.length]

/-! ### C7: variation generation -/

/-- C7 counterexample: `" "` is a non-empty raw card name, yet the generated
variation list is empty — in particular it does not contain the lower-cased,
trimmed original (the empty string), which is discarded by the length filter. -/
theorem generateVariations_blank_counterexample :
    (" " : String) ≠ "" ∧ generateVariations id id " " = [] := by
  constructor
  · decide
  · rfl

/-- C7 (amended): for every raw card name whose lower-cased, trimmed form is
non-empty, the variation generator returns a non-empty, duplicate-free list of
non-empty strings containing at least the lower-cased, trimmed original.
The Unicode normalizations `nfkc`/`nfd` are arbitrary. -/
theorem generateVariations_spec (nfkc nfd : String → String) (rawName : String)
    (h : jsTrim (jsToLower rawName) ≠ "") :
    jsTrim (jsToLower rawName) ∈ generateVariations nfkc nfd rawName ∧
    generateVariations nfkc nfd rawName ≠ [] ∧
    (generateVariations nfkc nfd rawName).Nodup ∧
    ∀ v ∈ generateVariations nfkc nfd rawName, v ≠ "" := by
  set n := jsTrim (jsToLower rawName) with hn
  have hmem : n ∈ generateVariations nfkc nfd rawName := by
    unfold generateVariations createNameVariations
    rw [← hn]
    have hbase : n ∈ (variationCandidates nfkc nfd n).foldl insertUniq [] := by
      rw [mem_foldl_insertUniq]
      exact Or.inr (by simp [variationCandidates])
    have hvs : n ∈
        (if withoutCommonWords n = "" then (variationCandidates nfkc nfd n).foldl insertUniq []
         else insertUniq ((variationCandidates nfkc nfd n).foldl insertUniq [])
           (withoutCommonWords n)) := by
      split
      · exact hbase
      · exact mem_insertUniq.mpr (Or.inl hbase)
    simp only [List.mem_filter]
    exact ⟨hvs, by simpa using strLength_pos_of_ne h⟩
  refine ⟨hmem, List.ne_nil_of_mem hmem, ?_, ?_⟩
  · unfold generateVariations createNameVariations
    apply List.Nodup.filter
    split
    · exact nodup_foldl_insertUniq _ _ List.nodup_nil
    · exact nodup_insertUniq (nodup_foldl_insertUniq _ _ List.nodup_nil)
  · intro v hv hveq
    unfold generateVariations createNameVariations at hv
    simp only [List.mem_filter] at hv
    have : (0 : ℕ) < v.length := by simpa using hv.2
    rw [hveq] at this
    simp [String.length] at this

theorem generateVariations_spec_witness :
    ("pikachu vmax" : String) ∈ generateVariations id id "Pikachu VMAX" ∧
    generateVariations id id "Pikachu VMAX" ≠ [] ∧
    (generateVariations id id "Pikachu VMAX").Nodup ∧
    ∀ v ∈ generateVariations id id "Pikachu VMAX", v ≠ "" :=
  generateVariations_spec id id "Pikachu VMAX" (by decide)

/-! ### C8: key-term extraction -/

/-- C8 counterexample: the full variation string is always added when it has
at least 3 characters, even when it is itself a configured stop word: on the
variation list `["the"]` the extractor returns `["the"]`, which contains the
stop word `"the"`. -/
theorem extractKeyTerms_stopword_counterexample :
    extractKeyTerms ["the"] = ["the"] ∧ "the" ∈ stopWords := by
  constructor
  · rfl
  · decide

theorem mem_addTokens_of_mem {ts : List String} {ws : List String} {x : String}
    (h : x ∈ ts) : x ∈ addTokens ts ws := by
  induction ws generalizing ts with
  | nil => simpa [addTokens] using h
  | cons w rest ih =>
    unfold addTokens at ih ⊢
    simp only [List.foldl_cons]
    apply ih
    split
    · exact mem_insertUniq.mpr (Or.inl h)
    · exact h

theorem mem_addTokens_self {ts : List String} {ws : List String} {w : String}
    (hw : w ∈ ws) (hl : 3 ≤ w.length) (hs : w ∉ stopWords) : w ∈ addTokens ts ws := by
  induction ws generalizing ts with
  | nil => cases hw
  | cons a rest ih =>
    unfold addTokens at ih ⊢
    simp only [List.foldl_cons]
    rcases List.mem_cons.mp hw with rfl | hw2
    · have : w ∈ insertUniq ts w := mem_insertUniq.mpr (Or.inr rfl)
      rw [if_pos ⟨hl, hs⟩]
      exact mem_addTokens_of_mem this
    · exact ih hw2

theorem mem_addTokens_cases {ts : List String} {ws : List String} {x : String}
    (h : x ∈ addTokens ts ws) :
    x ∈ ts ∨ (x ∈ ws ∧ 3 ≤ x.length ∧ x ∉ stopWords) := by
  induction ws generalizing ts with
  | nil => exact Or.inl (by simpa [addTokens] using h)
  | cons a rest ih =>
    unfold addTokens at h
    simp only [List.foldl_cons] at h
    rcases ih h with hx | hx
    · by_cases hc : 3 ≤ a.length ∧ a ∉ stopWords
      · rw [if_pos hc] at hx
        rcases mem_insertUniq.mp hx with hx2 | rfl
        · exact Or.inl hx2
        · exact Or.inr ⟨List.mem_cons_self _ _, hc.1, hc.2⟩
      · rw [if_neg hc] at hx
        exact Or.inl hx
    · exact Or.inr ⟨List.mem_cons_of_mem _ hx.1, hx.2⟩

theorem mem_addVariation_of_mem {ts : List String} {v x : String} (h : x ∈ ts) :
    x ∈ addVariation ts v := by
  unfold addVariation
  split
  · exact mem_insertUniq.mpr (Or.inl (mem_addTokens_of_mem h))
  · exact mem_addTokens_of_mem h

theorem mem_addVariation_cases {ts : List String} {v x : String}
    (h : x ∈ addVariation ts v) :
    x ∈ ts ∨ (x ∈ splitTokens v ∧ 3 ≤ x.length ∧ x ∉ stopWords) ∨
      (x = v ∧ 3 ≤ x.length) := by
  unfold addVariation at h
  split at h
  · next hc =>
    rcases mem_insertUniq.mp h with h2 | rfl
    · rcases mem_addTokens_cases h2 with h3 | h3
      · exact Or.inl h3
      · exact Or.inr (Or.inl h3)
    · exact Or.inr (Or.inr ⟨rfl, hc⟩)
  · rcases mem_addTokens_cases h with h3 | h3
    · exact Or.inl h3
    · exact Or.inr (Or.inl h3)

theorem mem_foldl_addVariation_of_mem {x : String} :
    ∀ (vs : List String) (ts : List String), x ∈ ts → x ∈ vs.foldl addVariation ts := by
  intro vs
  induction vs with
  | nil => intro ts h; simpa using h
  | cons a rest ih =>
    intro ts h
    exact ih _ (mem_addVariation_of_mem h)

/-- C8 (amended): `extractKeyTerms` includes every token of length at least 3
(splitting each variation on whitespace, hyphen, underscore or apostrophe)
that is not a configured stop word; and every returned term is either such a
token or one of the input variation strings of length at least 3 — so a stop
word can reach the result only as a full input variation, never as a token. -/
theorem extractKeyTerms_spec (variations : List String) :
    (∀ v ∈ variations, ∀ w ∈ splitTokens v,
        3 ≤ w.length → w ∉ stopWords → w ∈ extractKeyTerms variations) ∧
    (∀ t ∈ extractKeyTerms variations,
        (∃ v ∈ variations, t ∈ splitTokens v ∧ 3 ≤ t.length ∧ t ∉ stopWords) ∨
        (t ∈ variations ∧ 3 ≤ t.length)) := by
  constructor
  · intro v hv w hw hl hs
    unfold extractKeyTerms
    have main : ∀ (vs : List String) (ts : List String), v ∈ vs →
        w ∈ vs.foldl addVariation ts := by
      intro vs
      induction vs with
      | nil => intro ts h; cases h
      | cons a rest ih =>
        intro ts h
        rcases List.mem_cons.mp h with rfl | h2
        · simp only [List.foldl_cons]
          apply mem_foldl_addVariation_of_mem
          unfold addVariation
          have : w ∈ addTokens ts (splitTokens v) := mem_addTokens_self hw hl hs
          split
          · exact mem_insertUniq.mpr (Or.inl this)
          · exact this
        · exact ih _ h2
    exact main variations [] hv
  · intro t ht
    unfold extractKeyTerms at ht
    have main : ∀ (vs : List String) (ts : List String), t ∈ vs.foldl addVariation ts →
        t ∈ ts ∨ (∃ v ∈ vs, t ∈ splitTokens v ∧ 3 ≤ t.length ∧ t ∉ stopWords) ∨
          (t ∈ vs ∧ 3 ≤ t.length) := by
      intro vs
      induction vs with
      | nil => intro ts h; exact Or.inl (by simpa using h)
      | cons a rest ih =>
        intro ts h
        rcases ih _ h with h2 | h2 | h2
        · rcases mem_addVariation_cases h2 with h3 | h3 | h3
          · exact Or.inl h3
          · exact Or.inr (Or.inl ⟨a, List.mem_cons_self _ _, h3⟩)
          · exact Or.inr (Or.inr ⟨h3.1 ▸ List.mem_cons_self _ _, h3.2⟩)
        · obtain ⟨v, hv, hrest⟩ := h2
          exact Or.inr (Or.inl ⟨v, List.mem_cons_of_mem _ hv, hrest⟩)
        · exact Or.inr (Or.inr ⟨List.mem_cons_of_mem _ h2.1, h2.2⟩)
    rcases main variations [] ht with h | h | h
    · cases h
    · exact Or.inl h
    · exact Or.inr h

theorem extractKeyTerms_spec_witness :
    ("pikachu" : String) ∈ extractKeyTerms ["pikachu vmax"] :=
  (extractKeyTerms_spec ["pikachu vmax"]).1 "pikachu vmax" (by decide) "pikachu"
    (by decide) (by decide) (by decide)

/-! ## TCGdex and JustTCG catalog adapters

Embeds `backend/services/TCGdex.js` (`searchCardsByName`) and
`backend/services/justtcg-service.js` (`formatJustTCGCard`,
`formatJustTCGCards`, `searchJustTCGCards`).

An adapter's JS exception behaviour is made explicit in the `Except` return
type: `.error` models a thrown exception reaching the caller. -/

/-- Does an `Except` value represent a non-thrown (ok) outcome? -/
def isOkE {ε α : Type} : Except ε α → Bool
  | .ok _ => true
  | .error _ => false

/-- `TCGdex.searchCardsByName(name, limit)`: falsy name short-circuits to `[]`;
`resp.data || []`; the `catch` turns any fetch failure into `[]`. -/
def tcgdexSearchCardsByName {α : Type} (fetchOutcome : Except String (Option (List α)))
    (name : String) : Except String (List α) :=
  if name = "" then .ok []
  else
    match fetchOutcome with
    | .ok d => .ok (d.getD [])
    | .error _ => .ok []

/-- One JustTCG sale variant, as consumed by `formatJustTCGCard`. -/
structure JTVariant where
  id : Option String := none
  printing : Option String := none
  condition : Option String := none
  language : Option String := none
  price : Option ℚ := none
  tcgplayerSkuId : Option String := none
  priceHistory : Option String := none
  lastUpdated : Option String := none
deriving DecidableEq, Repr

/-- One JustTCG catalog card (`setId` flattens `card.set?.id`). -/
structure JTCard where
  id : Option String := none
  name : Option String := none
  set_name : Option String := none
  setId : Option String := none
  number : Option String := none
  rarity : Option String := none
  image_url : Option String := none
  tcgplayerId : Option String := none
  game : Option String := none
  variants : Option (List JTVariant) := none
deriving DecidableEq, Repr

/-- The candidate shape produced by `formatJustTCGCard`. -/
structure JTFormatted where
  id : Option String
  name : Option String
  set_name : Option String
  set_id : Option String
  number : Option String
  rarity : Option String
  printing : Option String
  condition : Option String
  language : Option String
  price : Option ℚ
  image_url : Option String
  tcgplayer_id : Option String
  game : Option String
  source : String
  price_history : Option String
  last_updated : Option String
deriving DecidableEq, Repr

/-- `formatJustTCGCard(card, variant)` with a variant supplied. -/
def formatJustTCGCardVariant (card : JTCard) (variant : JTVariant) : JTFormatted where
  id := jsOrS variant.id card.id
  name := card.name
  set_name := card.set_name
  set_id := card.setId
  number := card.number
  rarity := card.rarity
  printing := variant.printing
  condition := variant.condition
  language := variant.language
  price := some (jsNumOr variant.price 0)
  image_url := jsOrS card.image_url none
  tcgplayer_id := variant.tcgplayerSkuId
  game := card.game
  source := "justtcg"
  price_history := variant.priceHistory
  last_updated := variant.lastUpdated

/-- The fallback branch of `formatJustTCGCard` for a card without variant data. -/
def formatJustTCGCardNoVariant (card : JTCard) : JTFormatted where
  id := card.id
  name := card.name
  set_name := card.set_name
  set_id := card.setId
  number := card.number
  rarity := card.rarity
  printing := none
  condition := none
  language := none
  price := some 0
  image_url := jsOrS card.image_url none
  tcgplayer_id := card.tcgplayerId
  game := card.game
  source := "justtcg"
  price_history := none
  last_updated := none

/-- `formatJustTCGCard(card)`: one entry per variant when
`card.variants && Array.isArray(card.variants) && card.variants.length > 0`,
otherwise the single fallback entry. -/
def formatJustTCGCard (card : JTCard) : List JTFormatted :=
  match card.variants with
  | some (v :: vs) => (v :: vs).map (formatJustTCGCardVariant card)
  | _ => [formatJustTCGCardNoVariant card]

/-- `card.language && card.language.toLowerCase() === languageFilter.toLowerCase()`. -/
def languageMatches (filt : String) (f : JTFormatted) : Bool :=
  match f.language with
  | some l => if l = "" then false else jsToLower l = jsToLower filt
  | none => false

/-- `formatJustTCGCards(cards, languageFilter)`: flatten variants, then filter
by language when a filter is given. -/
def formatJustTCGCards (cards : List JTCard) (languageFilter : Option String) :
    List JTFormatted :=
  let formatted := cards.flatMap formatJustTCGCard
  match languageFilter with
  | some filt => formatted.filter (languageMatches filt)
  | none => formatted

/-- Outcome of the single `fetch` performed by `searchJustTCGCards`:
a parsed body (`data.data`, possibly absent), a non-ok HTTP response, or a
thrown network/parse error. -/
inductive JustTCGFetch where
  | ok (data : Option (List JTCard))
  | httpError (status : ℕ) (text : String)
  | networkError (msg : String)
deriving Repr

/-- `searchJustTCGCards(query, language, condition, limit)`: on a non-ok
response it throws `JustTCG API error: ...`; the outer `catch` logs and
**re-throws** (`throw error`), so every failure propagates to the caller. -/
def searchJustTCGCards (fetchOutcome : JustTCGFetch) (query language : String) :
    Except String (List JTFormatted) :=
  match fetchOutcome with
  | .ok d =>
    .ok (formatJustTCGCards (d.getD []) (if language = "ja" then some "Japanese" else none))
  | .httpError s t => .error ("JustTCG API error: " ++ toString s ++ " - " ++ t)
  | .networkError m => .error m

/-! ### C4: adapter error containment -/

/-- C4 counterexample: the JustTCG adapter surfaces an exception to its caller
(here for an HTTP 500 outcome), instead of returning an empty candidate list. -/
theorem searchJustTCGCards_throws_counterexample :
    isOkE (searchJustTCGCards (.httpError 500 "boom") "pikachu" "en") = false := rfl

/-- C4 (amended): the spreadsheet adapter and the TCGdex adapter never surface
an exception — on any fetch outcome, including errors, they return an `ok`
list — but the JustTCG adapter propagates every failed fetch (non-ok HTTP
response or thrown network/parse error) as an exception to its caller. -/
theorem adapters_error_containment :
    (∀ (parseFloatQ : String → ℚ) (nfkc nfd : String → String) (configured : Bool)
        (rowsOutcome : Except String (Option (List SheetRow))) (cardName : String)
        (limit : ℕ),
        isOkE (searchCardsInSheet parseFloatQ nfkc nfd configured rowsOutcome cardName limit)
          = true) ∧
    (∀ (α : Type) (fetchOutcome : Except String (Option (List α))) (name : String),
        isOkE (tcgdexSearchCardsByName fetchOutcome name) = true) ∧
    (∀ (s : ℕ) (t query language : String),
        isOkE (searchJustTCGCards (.httpError s t) query language) = false) ∧
    (∀ (m query language : String),
        isOkE (searchJustTCGCards (.networkError m) query language) = false) := by
  refine ⟨?_, ?_, ?_, ?_⟩
  · intro parseFloatQ nfkc nfd configured rowsOutcome cardName limit
    unfold searchCardsInSheet
    cases configured with
    | false => rfl
    | true =>
      cases rowsOutcome with
      | error e => rfl
      | ok d => cases d with
        | none => rfl
        | some rows => rfl
  · intro α fetchOutcome name
    unfold tcgdexSearchCardsByName
    by_cases h : name = ""
    · simp [h, isOkE]
    · cases fetchOutcome with
      | error e => simp [h, isOkE]
      | ok d => simp [h, isOkE]
  · intro s t query language
    rfl
  · intro m query language
    rfl

/-! ### C9: JustTCG price formatting -/

theorem mem_formatJustTCGCard_price {card : JTCard} {f : JTFormatted}
    (h : f ∈ formatJustTCGCard card) : f.price.isSome = true := by
  unfold formatJustTCGCard at h
  split at h
  · next v vs _ =>
    rcases List.mem_map.mp h with ⟨w, _, rfl⟩
    simp [formatJustTCGCardVariant]
  · simp at h
    subst h
    simp [formatJustTCGCardNoVariant]

/-- C9: every candidate produced by the JustTCG formatter carries a numeric
(never-null) price; a variant with an absent (or zero) price is formatted with
price 0; and a card with no variants yields exactly one candidate, with price
0 and null printing, condition and language. -/
theorem formatJustTCG_price_never_null :
    (∀ (cards : List JTCard) (filt : Option String),
        ∀ f ∈ formatJustTCGCards cards filt, f.price.isSome = true) ∧
    (∀ (card : JTCard) (v : JTVariant), (v.price = none ∨ v.price = some 0) →
        (formatJustTCGCardVariant card v).price = some 0) ∧
    (∀ card : JTCard, (card.variants = none ∨ card.variants = some []) →
        formatJustTCGCard card = [formatJustTCGCardNoVariant card] ∧
        (formatJustTCGCardNoVariant card).price = some 0 ∧
        (formatJustTCGCardNoVariant card).printing = none ∧
        (formatJustTCGCardNoVariant card).condition = none ∧
        (formatJustTCGCardNoVariant card).language = none) := by
  refine ⟨?_, ?_, ?_⟩
  · intro cards filt f hf
    unfold formatJustTCGCards at hf
    have hmem : f ∈ cards.flatMap formatJustTCGCard := by
      rcases filt with _ | flt
      · simpa using hf
      · exact (List.mem_filter.mp (by simpa using hf)).1
    rcases List.mem_flatMap.mp hmem with ⟨c, _, hc⟩
    exact mem_formatJustTCGCard_price hc
  · intro card v hv
    rcases hv with hv | hv <;> simp [formatJustTCGCardVariant, jsNumOr, hv]
  · intro card hvar
    rcases hvar with hv | hv <;>
      exact ⟨by simp [formatJustTCGCard, hv], rfl, rfl, rfl, rfl⟩

theorem formatJustTCG_price_never_null_witness :
    (formatJustTCGCardVariant {} {}).price = some 0 ∧
    formatJustTCGCard {} = [formatJustTCGCardNoVariant {}] :=
  ⟨formatJustTCG_price_never_null.2.1 {} {} (Or.inl rfl),
    (formatJustTCG_price_never_null.2.2 {} (Or.inl rfl)).1⟩

/-! ## Price extractor

Embeds `extractMarketPrice` from `backend/services/pokemonTcg.js`:

```js
export function extractMarketPrice(card) {
    if (!card) return null;
    if (card.cardmarket?.prices?.averageSellPrice) return card.cardmarket.prices.averageSellPrice;
    if (card.tcgplayer?.prices) {
        for (const key of ['holofoil','normal','reverseHolofoil','1stEditionHolofoil']) {
            if (card.tcgplayer.prices[key]?.market) return card.tcgplayer.prices[key].market;
        }
    }
    return null;
}
```

Optional chains are flattened: `cardmarketAvg` is
`card.cardmarket?.prices?.averageSellPrice` and each field of
`TcgplayerPriceBlock` is `card.tcgplayer.prices[key]?.market`. The `if (x)`
guards are JS truthiness on numbers, made explicit through `truthyQ`. -/

structure TcgplayerPriceBlock where
  holofoil : Option ℚ := none
  normal : Option ℚ := none
  reverseHolofoil : Option ℚ := none
  firstEditionHolofoil : Option ℚ := none
deriving DecidableEq, Repr

structure PtcgCard where
  cardmarketAvg : Option ℚ := none
  tcgplayerPrices : Option TcgplayerPriceBlock := none
deriving DecidableEq, Repr

/-- First truthy (present and non-zero) value along a list of price paths. -/
def firstTruthy : List (Option ℚ) → Option ℚ
  | [] => none
  | o :: rest =>
    match truthyQ o with
    | some v => some v
    | none => firstTruthy rest

/-- `extractMarketPrice(card)`. -/
def extractMarketPrice : Option PtcgCard → Option ℚ
  | none => none
  | some card =>
    match truthyQ card.cardmarketAvg with
    | some v => some v
    | none =>
      match card.tcgplayerPrices with
      | none => none
      | some pr =>
        firstTruthy [pr.holofoil, pr.normal, pr.reverseHolofoil, pr.firstEditionHolofoil]

/-- The claim's fixed priority list of price-field paths: aggregator average
first, then the itemized printing market prices in the order holofoil, normal,
reverse-holofoil, first-edition-holofoil (optional chains flattened). -/
def claimPricePaths (c : PtcgCard) : List (Option ℚ) :=
  [c.cardmarketAvg,
   c.tcgplayerPrices.bind TcgplayerPriceBlock.holofoil,
   c.tcgplayerPrices.bind TcgplayerPriceBlock.normal,
   c.tcgplayerPrices.bind TcgplayerPriceBlock.reverseHolofoil,
   c.tcgplayerPrices.bind TcgplayerPriceBlock.firstEditionHolofoil]

/-! ### C5: price extraction priority -/

/-- Payload `{cardmarket: {prices: {averageSellPrice: 0}}}`. -/
def zeroAvgCard : PtcgCard := { cardmarketAvg := some 0 }

/-- Payload `{avg: 0, tcgplayer: {holofoil: {market: 9.99}}}`. -/
def zeroAvgHoloCard : PtcgCard :=
  { cardmarketAvg := some 0, tcgplayerPrices := some { holofoil := some (9.99 : ℚ) } }

/-- Payload `{avg: 12.50, tcgplayer: {holofoil: {market: 9.99}}}`. -/
def specExampleCard : PtcgCard :=
  { cardmarketAvg := some (12.5 : ℚ), tcgplayerPrices := some { holofoil := some (9.99 : ℚ) } }

/-- C5 counterexample: a present aggregator average price of `0` is a non-null
numeric value, yet the extractor skips it (JS truthiness): with no other
prices it returns `null` rather than `0`, and with a holofoil market price it
returns that lower-priority value. -/
theorem extractMarketPrice_zero_counterexample :
    extractMarketPrice (some zeroAvgCard) = none ∧
    extractMarketPrice (some zeroAvgHoloCard) = some (9.99 : ℚ) := by
  constructor <;>
    norm_num [extractMarketPrice, truthyQ, firstTruthy, zeroAvgCard, zeroAvgHoloCard]

/-- C5 (amended): the extractor returns the first present **and non-zero**
numeric value along the fixed priority list (aggregator average, then
holofoil, normal, reverse-holofoil, first-edition-holofoil markets), `null`
when no such value exists; on the payload
`{avg: 12.50, tcgplayer: {holofoil: {market: 9.99}}}` it returns `12.50`. -/
theorem extractMarketPrice_priority :
    (∀ c : PtcgCard, extractMarketPrice (some c) = firstTruthy (claimPricePaths c)) ∧
    extractMarketPrice none = none ∧
    extractMarketPrice (some specExampleCard) = some (12.5 : ℚ) := by
  refine ⟨?_, rfl, ?_⟩
  · rintro ⟨avg, tp⟩
    cases tp with
    | none =>
      cases h : truthyQ avg <;>
        simp [extractMarketPrice, claimPricePaths, firstTruthy, Option.bind, h, truthyQ]
    | some pr =>
      cases h : truthyQ avg <;>
        simp [extractMarketPrice, claimPricePaths, firstTruthy, Option.bind, h, truthyQ]
  · norm_num [extractMarketPrice, truthyQ, firstTruthy, specExampleCard]

/-! ## Candidate ranking

Embeds the ranking comparator of `POST /identify-card` in
`backend/routes/justtcg-routes.js` (run only when `aiData.setName` is truthy):

```js
rankedCards = cards.sort((a, b) => {
  const aSetMatch = a.set_name && a.set_name.toLowerCase().includes(aiData.setName.toLowerCase());
  const bSetMatch = b.set_name && b.set_name.toLowerCase().includes(aiData.setName.toLowerCase());
  if (aSetMatch && !bSetMatch) return -1;
  if (!aSetMatch && bSetMatch) return 1;
  return (b.price || 0) - (a.price || 0);
});
```

`Array.prototype.sort` is required by the ES specification to produce a list
sorted with respect to the comparator (and to be stable); it is modelled here
with insertion sort under the comparator-induced total preorder, which
satisfies the same specification. -/

/-- `a.set_name && a.set_name.toLowerCase().includes(target.toLowerCase())`. -/
def setMatchB (target : String) (c : JTFormatted) : Bool :=
  match c.set_name with
  | some s => if s = "" then false else strContains (jsToLower s) (jsToLower target)
  | none => false

/-- `c.price || 0`. -/
def priceOr0 (c : JTFormatted) : ℚ := jsNumOr c.price 0

/-- The comparator's return value. -/
def rankCompare (target : String) (a b : JTFormatted) : ℚ :=
  if setMatchB target a && !setMatchB target b then -1
  else if !setMatchB target a && setMatchB target b then 1
  else priceOr0 b - priceOr0 a

/-- `a` sorts no later than `b` under the comparator. -/
def rankLe (target : String) (a b : JTFormatted) : Prop :=
  rankCompare target a b ≤ 0

instance (target : String) : DecidableRel (rankLe target) := fun a b =>
  inferInstanceAs (Decidable (rankCompare target a b ≤ 0))

instance (target : String) : IsTotal JTFormatted (rankLe target) where
  total a b := by
    by_cases ha : setMatchB target a <;> by_cases hb : setMatchB target b <;>
      simp [rankLe, rankCompare, ha, hb]
    · cases le_total (priceOr0 a) (priceOr0 b) with
      | inl h => exact Or.inr (by linarith)
      | inr h => exact Or.inl (by linarith)
    · cases le_total (priceOr0 a) (priceOr0 b) with
      | inl h => exact Or.inr (by linarith)
      | inr h => exact Or.inl (by linarith)

instance (target : String) : IsTrans JTFormatted (rankLe target) where
  trans a b c hab hbc := by
    by_cases ha : setMatchB target a <;> by_cases hb : setMatchB target b <;>
        by_cases hc : setMatchB target c <;>
      simp_all [rankLe, rankCompare, ha, hb, hc] <;> linarith

/-- `cards.sort(comparator)`. -/
def rankCards (target : String) (cards : List JTFormatted) : List JTFormatted :=
  List.insertionSort (rankLe target) cards

/-- The claim's notion of a set match: the candidate's set field (treated as
the empty string when absent) contains the target name as a case-insensitive
substring. -/
def specSetContains (target : String) (c : JTFormatted) : Bool :=
  strContains (jsToLower (c.set_name.getD "")) (jsToLower target)

theorem jsToLower_toList (s : String) :
    (jsToLower s).toList = s.toList.map Char.toLower := rfl

theorem specSetContains_eq_setMatchB {target : String} (h : target ≠ "")
    (c : JTFormatted) : specSetContains target c = setMatchB target c := by
  have hne : (jsToLower target).toList ≠ [] := by
    cases target with
    | mk data =>
      cases data with
      | nil => exact absurd rfl h
      | cons a as => simp [jsToLower, String.toList]
  have hfalse : ∀ hay : String, hay.toList = [] →
      strContains hay (jsToLower target) = false := by
    intro hay hh
    unfold strContains
    rw [hh]
    unfold charsInf
    cases he : (jsToLower target).toList with
    | nil => exact absurd he hne
    | cons x xs => simp [List.isEmpty]
  cases hs : c.set_name with
  | none =>
    simp only [specSetContains, setMatchB, hs, Option.getD]
    exact hfalse "" rfl
  | some s =>
    by_cases hse : s = ""
    · simp only [specSetContains, setMatchB, hs, Option.getD, hse, if_pos]
      exact hfalse "" rfl
    · simp only [specSetContains, setMatchB, hs, Option.getD, if_neg hse]

/-- The `"Sword & Shield"` candidate priced 5.00. -/
def swshCard : JTFormatted :=
  { id := none, name := none, set_name := some "Sword & Shield", set_id := none,
    number := none, rarity := none, printing := none, condition := none, language := none,
    price := some 5, image_url := none, tcgplayer_id := none, game := none,
    source := "justtcg", price_history := none, last_updated := none }

/-- The `"Base Set"` candidate priced 50.00. -/
def baseCard : JTFormatted :=
  { id := none, name := none, set_name := some "Base Set", set_id := none,
    number := none, rarity := none, printing := none, condition := none, language := none,
    price := some 50, image_url := none, tcgplayer_id := none, game := none,
    source := "justtcg", price_history := none, last_updated := none }

/-- C6: in the ranked output, for any earlier candidate `a` and later
candidate `b`: if `b`'s set field contains the (non-empty) target name as a
case-insensitive substring then so does `a`'s, and when both have the same
set-match status the earlier candidate's price (defaulted to 0) is at least
the later one's; concretely, with target `"Base"`, the `"Base Set"` candidate
priced 50.00 ranks ahead of the `"Sword & Shield"` candidate priced 5.00 —
and it also would if its price were lower, by the set-match rule. -/
theorem rankCards_spec :
    (∀ (target : String) (cards : List JTFormatted), target ≠ "" →
      List.Pairwise (fun a b =>
          (specSetContains target b = true → specSetContains target a = true) ∧
          (specSetContains target a = specSetContains target b →
            priceOr0 b ≤ priceOr0 a)) (rankCards target cards)) ∧
    rankCards "Base" [swshCard, baseCard] = [baseCard, swshCard] := by
  constructor
  · intro target cards htarget
    have hs := List.sorted_insertionSort (rankLe target) cards
    refine hs.imp ?_
    intro a b hab
    simp only [specSetContains_eq_setMatchB htarget]
    by_cases ha : setMatchB target a <;> by_cases hb : setMatchB target b <;>
      simp [rankLe, rankCompare, ha, hb] at hab ⊢ <;> linarith
  · decide

theorem rankCards_spec_witness :
    List.Pairwise (fun a b =>
        (specSetContains "Base" b = true → specSetContains "Base" a = true) ∧
        (specSetContains "Base" a = specSetContains "Base" b →
          priceOr0 b ≤ priceOr0 a)) (rankCards "Base" [swshCard, baseCard]) :=
  rankCards_spec.1 "Base" [swshCard, baseCard] (by decide)

/-! ## Resolution orchestration

Embeds the hybrid search endpoint `GET /api/cards/search-sheet` in
`backend/server.js` and the upload-handler source fallback in
`frontend/app.js` (the sheet endpoint first, then `fetchCardsFromTCGdex`).
Cards flowing through the orchestrator are opaque JSON values, modelled by a
type parameter. -/

/-- The JSON response of `GET /api/cards/search-sheet`: a 400 error for a
falsy name, or a success payload (`useTCGdex` is absent, hence falsy, on the
`google-sheet` branch). -/
inductive SheetResponse (α : Type) where
  | badRequest (error : String)
  | results (cards : List α) (source : String) (useTCGdex : Bool)
deriving DecidableEq, Repr

/-- The `GET /api/cards/search-sheet` handler: a thrown sheet read is caught
(leaving `cards` empty); a non-empty sheet result is answered with source
`google-sheet`; an empty or failed read is answered with the **non-error**
`useTCGdex: true` marker response and source `tcgdex-fallback`. -/
def searchSheetHandler {α : Type} (name : String)
    (sheetOutcome : Except String (List α)) : SheetResponse α :=
  if name = "" then .badRequest "Card name is required"
  else
    let cards : List α :=
      match sheetOutcome with
      | .ok cs => cs
      | .error _ => []
    if cards.length = 0 then .results [] "tcgdex-fallback" true
    else .results cards "google-sheet" false

/-- Trace of the frontend upload handler's resolution: the outcome (`.error`
models the handler's `throw new Error(...)`) and whether the TCGdex source
was invoked at all. -/
structure UploadTrace (α : Type) where
  result : Except String (List α × String)
  tcgdexInvoked : Bool
deriving DecidableEq, Repr

/-- The upload handler's fallback chain: step 1 uses the sheet endpoint's
cards when `sheetData.success && sheetData.cards && sheetData.cards.length > 0`
(a failed endpoint call, `none`, is caught and ignored); step 2 invokes
TCGdex only when step 1 produced nothing; when the final list is still empty
the handler throws `No matching cards found for <name>`. -/
def uploadResolve {α : Type} (name : String)
    (sheetResp : Option (SheetResponse α)) (tcgdexCards : List α) : UploadTrace α :=
  let cards : List α :=
    match sheetResp with
    | some (.results cs _ _) => cs
    | _ => []
  if cards.length = 0 then
    if tcgdexCards.length = 0 then
      ⟨.error ("No matching cards found for " ++ name), true⟩
    else ⟨.ok (tcgdexCards, "TCGdex"), true⟩
  else ⟨.ok (cards, "Google Sheets"), false⟩

/-! ### C1: priority order, short-circuit, and the all-empty outcome -/

/-- C1 counterexample: when both the spreadsheet source and the TCGdex
fallback return empty lists, the resolution ends in a **thrown error**
(`No matching cards found for ...`), not in a non-error empty result. -/
theorem resolution_empty_throws_counterexample :
    (uploadResolve "Pikachu"
        (some (searchSheetHandler "Pikachu" (Except.ok ([] : List ℕ)))) []).result =
      Except.error "No matching cards found for Pikachu" := rfl

/-- C1 (amended): sources are tried in priority order (sheet first, TCGdex
second); a source succeeds exactly when it returns a non-empty list; the
first success is returned as-is (with its provenance) and TCGdex is not
invoked once the sheet has succeeded; when the sheet source is empty or
failed, the server endpoint returns a non-error empty response carrying the
`useTCGdex` marker; but when the TCGdex fallback is empty as well, the upload
handler raises a `No matching cards found` error instead of returning a
non-error empty result. -/
theorem resolution_orchestration_spec (α : Type) (name : String)
    (sheetCards tcgdexCards : List α) (hname : name ≠ "") :
    (sheetCards ≠ [] →
      searchSheetHandler name (.ok sheetCards) =
        .results sheetCards "google-sheet" false ∧
      uploadResolve name (some (searchSheetHandler name (.ok sheetCards))) tcgdexCards =
        ⟨.ok (sheetCards, "Google Sheets"), false⟩) ∧
    (searchSheetHandler name (Except.ok ([] : List α)) =
      .results [] "tcgdex-fallback" true) ∧
    (∀ e : String, searchSheetHandler name (Except.error e) =
      .results ([] : List α) "tcgdex-fallback" true) ∧
    (tcgdexCards ≠ [] →
      uploadResolve name (some (searchSheetHandler name (Except.ok ([] : List α))))
          tcgdexCards =
        ⟨.ok (tcgdexCards, "TCGdex"), true⟩) ∧
    uploadResolve name (some (searchSheetHandler name (Except.ok ([] : List α)))) [] =
      ⟨.error ("No matching cards found for " ++ name), true⟩ := by
  have hlen : ∀ (l : List α), l ≠ [] → ¬ l.length = 0 := by
    intro l hl h
    exact hl (List.length_eq_zero.mp h)
  refine ⟨?_, ?_, ?_, ?_, ?_⟩
  · intro hs
    have h1 : searchSheetHandler name (.ok sheetCards) =
        .results sheetCards "google-sheet" false := by
      unfold searchSheetHandler
      rw [if_neg hname, if_neg (hlen sheetCards hs)]
    refine ⟨h1, ?_⟩
    rw [h1]
    unfold uploadResolve
    rw [if_neg (hlen sheetCards hs)]
  · unfold searchSheetHandler
    rw [if_neg hname]
    rfl
  · intro e
    unfold searchSheetHandler
    rw [if_neg hname]
    rfl
  · intro ht
    have h1 : searchSheetHandler name (Except.ok ([] : List α)) =
        .results [] "tcgdex-fallback" true := by
      unfold searchSheetHandler
      rw [if_neg hname]
      rfl
    rw [h1]
    unfold uploadResolve
    simp [if_neg (hlen tcgdexCards ht)]
  · have h1 : searchSheetHandler name (Except.ok ([] : List α)) =
        .results [] "tcgdex-fallback" true := by
      unfold searchSheetHandler
      rw [if_neg hname]
      rfl
    rw [h1]
    rfl

theorem resolution_orchestration_spec_witness :
    uploadResolve "Pikachu"
        (some (searchSheetHandler "Pikachu" (Except.ok [7]))) ([] : List ℕ) =
      ⟨Except.ok ([7], "Google Sheets"), false⟩ :=
  ((resolution_orchestration_spec ℕ "Pikachu" [7] [] (by decide)).1 (by decide)).2

/-! ## Inventory update allow-list

Embeds the `PUT /:id` handler of `backend/routes/cards.js`. A request body is
a JSON object, modelled as an association list; the stored row is a total
assignment of JSON values to column names. The Supabase client's
`update(updateData)` is the external persistence collaborator: it overwrites
exactly the columns present in `updateData` and leaves every other column
unchanged. -/

inductive JsonVal where
  | str (s : String)
  | num (q : ℚ)
  | boolean (b : Bool)
  | null
deriving DecidableEq, Repr

/-- `key in body` / `body[key]`: the first binding of the key. -/
def lookupKey (body : List (String × JsonVal)) (k : String) : Option JsonVal :=
  (body.find? (fun p => p.1 = k)).map (fun p => p.2)

/-- The handler's allow-list (`allowedFields`). -/
def allowedFields : List String :=
  ["name", "set", "number", "rarity", "language", "condition",
   "marketprice", "listedprice", "availability", "imageurl"]

/-- `for (const key of allowedFields) if (key in req.body) updateData[key] = req.body[key]`. -/
def buildUpdateData (body : List (String × JsonVal)) : List (String × JsonVal) :=
  allowedFields.filterMap (fun k => (lookupKey body k).map (fun v => (k, v)))

/-- The Supabase `update` collaborator: overwrite exactly the supplied columns. -/
def applyUpdate (stored : String → JsonVal) (upd : List (String × JsonVal)) :
    String → JsonVal :=
  fun f =>
    match lookupKey upd f with
    | some v => v
    | none => stored f

/-- C10: the card-update operation writes only the ten allow-listed fields:
for every request body, a column outside the allow-list — in particular `id`,
`source` and `fetchedat` — is never part of the update payload, so its stored
value is unchanged. -/
theorem updateCard_allowlist_frame (body : List (String × JsonVal))
    (stored : String → JsonVal) (f : String) (hf : f ∉ allowedFields) :
    applyUpdate stored (buildUpdateData body) f = stored f ∧
    ("id" ∉ allowedFields ∧ "source" ∉ allowedFields ∧ "fetchedat" ∉ allowedFields) := by
  constructor
  · have hfind : (buildUpdateData body).find? (fun p => p.1 = f) = none := by
      apply List.find?_eq_none.mpr
      intro p hp
      rcases List.mem_filterMap.mp hp with ⟨k, hk, hg⟩
      rcases Option.map_eq_some'.mp hg with ⟨v, _, rfl⟩
      simp only [decide_eq_true_eq]
      intro hkf
      exact hf (hkf ▸ hk)
    simp [applyUpdate, lookupKey, hfind]
  · exact ⟨by decide, by decide, by decide⟩

theorem updateCard_allowlist_frame_witness :
    applyUpdate (fun _ => JsonVal.null)
        (buildUpdateData [("id", JsonVal.str "evil"), ("name", JsonVal.str "Mew")]) "id" =
      JsonVal.null :=
  (updateCard_allowlist_frame [("id", JsonVal.str "evil"), ("name", JsonVal.str "Mew")]
    (fun _ => JsonVal.null) "id" (by decide)).1
